import Mathlib

/-!
Verification development for the goes_viewer repository.

The numeric pipeline of `process_files.py` is modelled per pixel over an
IEEE-754-like scalar type `FVal` (a finite real, an infinity, or NaN),
following numpy semantics for `clip`, `maximum`, `power` and arithmetic.
Channel inputs and the declared valid range are IEEE doubles, hence exact
rationals or specials; intermediate values live in the reals.
-/

namespace GoesViewer

/-- An IEEE-754-like scalar as produced by the numpy array math in
`process_files.py`: NaN, an infinity, or a finite real. -/
inductive FVal where
  | nan : FVal
  | inf : FVal
  | ninf : FVal
  | fin : ℝ → FVal

/-- numpy `np.clip(x, 0, 1)`, i.e. `minimum(maximum(x, 0), 1)`; NaN
propagates through both comparisons, infinities are clamped. -/
noncomputable def FVal.clip01 : FVal → FVal
  | .nan => .nan
  | .inf => .fin 1
  | .ninf => .fin 0
  | .fin x => .fin (min (max x 0) 1)

/-- IEEE addition of two values. -/
def FVal.add : FVal → FVal → FVal
  | .nan, _ => .nan
  | _, .nan => .nan
  | .inf, .ninf => .nan
  | .ninf, .inf => .nan
  | .inf, _ => .inf
  | _, .inf => .inf
  | .ninf, _ => .ninf
  | _, .ninf => .ninf
  | .fin x, .fin y => .fin (x + y)

/-- Multiplication by a double constant `c` (exact rational), IEEE rules:
`c * inf` follows the sign of `c`, `0 * inf = nan`. -/
def FVal.cmul (c : ℚ) : FVal → FVal
  | .nan => .nan
  | .inf => if 0 < c then .inf else if c < 0 then .ninf else .nan
  | .ninf => if 0 < c then .ninf else if c < 0 then .inf else .nan
  | .fin x => .fin ((c : ℝ) * x)

/-- Subtraction of a double constant. -/
def FVal.csub (x : FVal) (c : ℚ) : FVal :=
  match x with
  | .nan => .nan
  | .inf => .inf
  | .ninf => .ninf
  | .fin x => .fin (x - (c : ℝ))

/-- Addition of a double constant. -/
def FVal.cadd (x : FVal) (c : ℚ) : FVal :=
  match x with
  | .nan => .nan
  | .inf => .inf
  | .ninf => .ninf
  | .fin x => .fin (x + (c : ℝ))

/-- The operation `1 - x` (IEEE). -/
def FVal.oneSub : FVal → FVal
  | .nan => .nan
  | .inf => .ninf
  | .ninf => .inf
  | .fin x => .fin (1 - x)

/-- Division by a nonzero double constant, via multiplication by its
reciprocal. Division by zero is not modelled (it never occurs in the
theorems below, which assume a nondegenerate valid range): that case is
mapped to NaN wholesale. -/
def FVal.cdiv (x : FVal) (c : ℚ) : FVal :=
  if c = 0 then .nan else FVal.cmul c⁻¹ x

/-- numpy `np.power(x, g)` for a positive non-integer exponent `g`:
NaN propagates, a negative finite base yields NaN, `(+-inf)^g = +inf`. -/
noncomputable def FVal.npow (g : ℝ) : FVal → FVal
  | .nan => .nan
  | .inf => .inf
  | .ninf => .inf
  | .fin x => if x < 0 then .nan else .fin (x ^ g)

/-- numpy `np.maximum`: NaN propagates (unlike fmax). -/
noncomputable def FVal.nmax : FVal → FVal → FVal
  | .nan, _ => .nan
  | _, .nan => .nan
  | .inf, _ => .inf
  | _, .inf => .inf
  | .ninf, y => y
  | x, .ninf => x
  | .fin x, .fin y => .fin (max x y)

/-- A value that is finite and inside the unit interval. -/
def FVal.inUnit (v : FVal) : Prop :=
  ∃ x : ℝ, v = .fin x ∧ 0 ≤ x ∧ x ≤ 1

/-- One pixel of the three-band composite returned by the Colorization
Engine. -/
structure GeoPixel where
  r : FVal
  g : FVal
  b : FVal

/-- `CONTRAST` from config.py line 9: `int(os.getenv("GV_CONTRAST", 105))`,
default 105. -/
def CONTRAST : ℚ := 105

/-- The contrast factor exactly as written on line 92 of process_files.py:
`F = (259 * (CONTRAST + 255)) / (255.0 * 259 - CONTRAST)`. Note the
denominator: `255.0 * 259 - CONTRAST`, not `255 * (259 - CONTRAST)`. -/
def F : ℚ := (259 * (CONTRAST + 255)) / (255 * 259 - CONTRAST)

/-- The gamma exponent of process_files.py line 71: `gamma = 1 / 1.7`. -/
noncomputable def gammaExp : ℝ := 1 / 1.7

/-- Per-pixel model of `make_geocolor_image` (process_files.py lines 55
to 95). Inputs: the three visible/near-IR channel values `CMI_C02`
(red), `CMI_C03` (near IR), `CMI_C01` (blue), the thermal channel
`CMI_C13`, and the declared valid range of the thermal channel. The body
follows the source line by line: clip R, NIR, B; synthesize and clip
green; gamma-correct; normalize, clip, invert and attenuate the clean-IR
channel; take elementwise maxima; contrast-stretch and clip. -/
noncomputable def make_geocolor_image (R0 NIR0 B0 C13 : FVal) (irlo irhi : ℚ) :
    GeoPixel :=
  let R := R0.clip01
  let NIR := NIR0.clip01
  let B := B0.clip01
  let G := (((FVal.cmul 0.45 R).add (FVal.cmul 0.1 NIR)).add
      (FVal.cmul 0.45 B)).clip01
  let Rg := FVal.npow gammaExp R
  let Gg := FVal.npow gammaExp G
  let Bg := FVal.npow gammaExp B
  let cleanIR := ((((C13.csub irlo).cdiv (irhi - irlo)).clip01).oneSub).cdiv 1.3
  { r := ((FVal.cmul F ((FVal.nmax Rg cleanIR).csub 0.5)).cadd 0.5).clip01
    g := ((FVal.cmul F ((FVal.nmax Gg cleanIR).csub 0.5)).cadd 0.5).clip01
    b := ((FVal.cmul F ((FVal.nmax Bg cleanIR).csub 0.5)).cadd 0.5).clip01 }

/-- Claim-side definition, following the spec's words (section 4.2 step 2):
green is synthesized as `0.45*red + 0.10*nir + 0.45*blue`, then clipped to
the unit interval. -/
noncomputable def green_synth (r nir b : FVal) : FVal :=
  (((FVal.cmul 0.45 r).add (FVal.cmul 0.1 nir)).add (FVal.cmul 0.45 b)).clip01

/-- Claim-side definition, following the spec's words (section 4.2 step 4):
normalize the thermal channel into the unit interval using its declared
valid range, clip, invert, then attenuate by dividing by 1.3. -/
noncomputable def clean_ir_overlay (c13 : FVal) (lo hi : ℚ) : FVal :=
  ((((c13.csub lo).cdiv (hi - lo)).clip01).oneSub).cdiv 1.3

/-- Claim-side definition, following the spec's words (section 4.2 step 6):
a linear contrast stretch around the 0.5 midpoint using factor `c`, then a
clip to the unit interval. -/
noncomputable def contrast_stretch (c : ℚ) (x : FVal) : FVal :=
  ((FVal.cmul c (x.csub 0.5)).cadd 0.5).clip01

/-- The contrast factor as the spec writes it:
`F = 259*(C+255) / (255*(259-C))` with C the configured contrast. -/
def spec_contrast_factor : ℚ := (259 * (CONTRAST + 255)) / (255 * (259 - CONTRAST))

theorem FVal.fin_ne_nan (x : ℝ) : FVal.fin x ≠ FVal.nan := fun h =>
  FVal.noConfusion h

theorem FVal.inUnit.ne_nan {v : FVal} (h : v.inUnit) : v ≠ FVal.nan := by
  obtain ⟨x, rfl, -, -⟩ := h
  exact FVal.fin_ne_nan x

theorem FVal.clip01_inUnit {v : FVal} (h : v ≠ FVal.nan) : v.clip01.inUnit := by
  cases v with
  | nan => exact absurd rfl h
  | inf => exact ⟨1, rfl, by norm_num⟩
  | ninf => exact ⟨0, rfl, by norm_num⟩
  | fin x =>
      refine ⟨min (max x 0) 1, rfl, le_min (le_max_right x 0) one_pos.le, ?_⟩
      exact min_le_right _ _

theorem FVal.cmul_inUnit {c : ℚ} {v : FVal} (hc0 : 0 ≤ c) (hc1 : c ≤ 1)
    (h : v.inUnit) : (FVal.cmul c v).inUnit := by
  obtain ⟨x, rfl, hx0, hx1⟩ := h
  refine ⟨(c : ℝ) * x, rfl, mul_nonneg (by exact_mod_cast hc0) hx0, ?_⟩
  calc (c : ℝ) * x ≤ 1 * 1 :=
        mul_le_mul (by exact_mod_cast hc1) hx1 hx0 one_pos.le
    _ = 1 := one_mul 1

theorem FVal.cmul_ne_nan {c : ℚ} {v : FVal} (hc : 0 < c) (h : v ≠ FVal.nan) :
    FVal.cmul c v ≠ FVal.nan := by
  cases v with
  | nan => exact absurd rfl h
  | inf => simp [FVal.cmul, hc]
  | ninf => simp [FVal.cmul, hc]
  | fin x => exact FVal.fin_ne_nan _

theorem FVal.csub_ne_nan {c : ℚ} {v : FVal} (h : v ≠ FVal.nan) :
    v.csub c ≠ FVal.nan := by
  cases v with
  | nan => exact absurd rfl h
  | inf => simp [FVal.csub]
  | ninf => simp [FVal.csub]
  | fin x => exact FVal.fin_ne_nan _

theorem FVal.cadd_ne_nan {c : ℚ} {v : FVal} (h : v ≠ FVal.nan) :
    v.cadd c ≠ FVal.nan := by
  cases v with
  | nan => exact absurd rfl h
  | inf => simp [FVal.cadd]
  | ninf => simp [FVal.cadd]
  | fin x => exact FVal.fin_ne_nan _

theorem FVal.cdiv_ne_nan {c : ℚ} {v : FVal} (hc : c ≠ 0) (h : v ≠ FVal.nan) :
    v.cdiv c ≠ FVal.nan := by
  have hinv : c⁻¹ ≠ 0 := inv_ne_zero hc
  rw [FVal.cdiv, if_neg hc]
  rcases hinv.lt_or_lt with hneg | hpos
  · cases v with
    | nan => exact absurd rfl h
    | inf => simp [FVal.cmul, hneg, not_lt_of_gt hneg]
    | ninf => simp [FVal.cmul, hneg, not_lt_of_gt hneg]
    | fin x => exact FVal.fin_ne_nan _
  · exact FVal.cmul_ne_nan hpos h

theorem FVal.cdiv_inUnit {c : ℚ} {v : FVal} (hc : 1 ≤ c) (h : v.inUnit) :
    (v.cdiv c).inUnit := by
  have hc0 : c ≠ 0 := by positivity
  rw [FVal.cdiv, if_neg hc0]
  have hinv : c⁻¹ ≤ 1 := by
    rw [inv_le_one_iff₀]
    exact Or.inr hc
  exact FVal.cmul_inUnit (by positivity) hinv h

theorem FVal.oneSub_inUnit {v : FVal} (h : v.inUnit) : v.oneSub.inUnit := by
  obtain ⟨x, rfl, hx0, hx1⟩ := h
  exact ⟨1 - x, rfl, by linarith, by linarith⟩

theorem FVal.npow_inUnit {g : ℝ} {v : FVal} (hg : 0 ≤ g) (h : v.inUnit) :
    (FVal.npow g v).inUnit := by
  obtain ⟨x, rfl, hx0, hx1⟩ := h
  rw [FVal.npow, if_neg (not_lt.mpr hx0)]
  exact ⟨x ^ g, rfl, Real.rpow_nonneg hx0 g, Real.rpow_le_one hx0 hx1 hg⟩

theorem FVal.nmax_inUnit {v w : FVal} (hv : v.inUnit) (hw : w.inUnit) :
    (FVal.nmax v w).inUnit := by
  obtain ⟨x, rfl, hx0, hx1⟩ := hv
  obtain ⟨y, rfl, hy0, hy1⟩ := hw
  exact ⟨max x y, rfl, le_max_of_le_left hx0, max_le hx1 hy1⟩

theorem contrast_stretch_inUnit {c : ℚ} {v : FVal} (hc : 0 < c)
    (h : v ≠ FVal.nan) : (contrast_stretch c v).inUnit :=
  FVal.clip01_inUnit (FVal.cadd_ne_nan (FVal.cmul_ne_nan hc (FVal.csub_ne_nan h)))

theorem F_pos : 0 < F := by norm_num [F, CONTRAST]

theorem gammaExp_nonneg : 0 ≤ gammaExp := by norm_num [gammaExp]

theorem spec_contrast_factor_ne_F : F < spec_contrast_factor := by
  norm_num [F, spec_contrast_factor, CONTRAST]

theorem gammaExp_lt_one : gammaExp < 1 := by norm_num [gammaExp]

theorem half_lt_gamma_pow : (1/2 : ℝ) < (1/2 : ℝ) ^ gammaExp := by
  have h := Real.rpow_lt_rpow_of_exponent_gt (x := (1/2 : ℝ)) (by norm_num)
    (by norm_num) gammaExp_lt_one
  rwa [Real.rpow_one] at h

theorem gamma_pow_lt_seven_tenths : (1/2 : ℝ) ^ gammaExp < 7/10 := by
  by_contra hcon
  push_neg at hcon
  have hp17 : ((1/2 : ℝ) ^ gammaExp) ^ (17 : ℕ) = (1/2 : ℝ) ^ (10 : ℕ) := by
    rw [← Real.rpow_natCast ((1/2 : ℝ) ^ gammaExp) 17,
      ← Real.rpow_mul (by norm_num : (0:ℝ) ≤ 1/2),
      show gammaExp * (17 : ℕ) = ((10 : ℕ) : ℝ) by norm_num [gammaExp],
      Real.rpow_natCast]
  have hmono : ((7:ℝ)/10) ^ (17 : ℕ) ≤ ((1/2 : ℝ) ^ gammaExp) ^ (17 : ℕ) :=
    pow_le_pow_left₀ (by norm_num) hcon 17
  rw [hp17] at hmono
  norm_num at hmono

/-- Evaluation of the Colorization Engine at the synthetic input of the
spec's end-to-end scenario: the three visible channels at mid-gray and
the thermal channel at the midpoint of its declared valid range. Every
output channel is the contrast stretch, with the factor the code
computes, of the gamma-corrected mid-gray value. -/
theorem geocolor_synthetic (irlo irhi : ℚ) (h : irlo < irhi) :
    make_geocolor_image (FVal.fin (1/2)) (FVal.fin (1/2)) (FVal.fin (1/2))
        (FVal.fin (((irlo + irhi) / 2 : ℚ) : ℝ)) irlo irhi =
      { r := contrast_stretch F (FVal.fin ((1/2 : ℝ) ^ gammaExp))
        g := contrast_stretch F (FVal.fin ((1/2 : ℝ) ^ gammaExp))
        b := contrast_stretch F (FVal.fin ((1/2 : ℝ) ^ gammaExp)) } := by
  have hd : irhi - irlo ≠ 0 := sub_ne_zero_of_ne h.ne'
  have h1 : FVal.clip01 (FVal.fin (1/2)) = FVal.fin (1/2) := by
    simp only [FVal.clip01, FVal.fin.injEq]
    rw [max_eq_left (by norm_num : (0:ℝ) ≤ 1/2),
      min_eq_left (by norm_num : (1/2 : ℝ) ≤ 1)]
  have h2 : ((FVal.cmul 0.45 (FVal.fin (1/2))).add
      (FVal.cmul 0.1 (FVal.fin (1/2)))).add (FVal.cmul 0.45 (FVal.fin (1/2)))
      = FVal.fin (1/2) := by
    simp only [FVal.cmul, FVal.add, FVal.fin.injEq]
    push_cast
    norm_num
  have h3 : FVal.npow gammaExp (FVal.fin (1/2)) =
      FVal.fin ((1/2 : ℝ) ^ gammaExp) := by
    rw [FVal.npow, if_neg (by norm_num : ¬ (1/2 : ℝ) < 0)]
  have h4 : (FVal.fin (((irlo + irhi) / 2 : ℚ) : ℝ)).csub irlo =
      FVal.fin ((((irlo + irhi) / 2 : ℚ) : ℝ) - (irlo : ℚ)) := rfl
  have h5 : (FVal.fin ((((irlo + irhi) / 2 : ℚ) : ℝ) - (irlo : ℚ))).cdiv
      (irhi - irlo) = FVal.fin (1/2) := by
    rw [FVal.cdiv, if_neg hd]
    simp only [FVal.cmul, FVal.fin.injEq]
    have hdR : (irhi : ℝ) - (irlo : ℝ) ≠ 0 := by
      rw [sub_ne_zero]
      exact_mod_cast h.ne'
    push_cast
    field_simp
    ring
  have h6 : (FVal.fin (1/2 : ℝ)).oneSub = FVal.fin (1/2) := by
    simp only [FVal.oneSub, FVal.fin.injEq]
    norm_num
  have h7 : (FVal.fin (1/2 : ℝ)).cdiv 1.3 = FVal.fin (5/13) := by
    rw [FVal.cdiv, if_neg (by norm_num : ¬ (1.3 : ℚ) = 0)]
    simp only [FVal.cmul, FVal.fin.injEq]
    push_cast
    norm_num
  have h8 : FVal.nmax (FVal.fin ((1/2 : ℝ) ^ gammaExp)) (FVal.fin (5/13)) =
      FVal.fin ((1/2 : ℝ) ^ gammaExp) := by
    simp only [FVal.nmax, FVal.fin.injEq]
    exact max_eq_left (le_trans (by norm_num) half_lt_gamma_pow.le)
  simp only [make_geocolor_image, contrast_stretch, h1, h2, h3, h4, h5, h6,
    h7, h8]

/-- C2 (corrected, counterexample): at the spec's synthetic input (three
visible channels at 0.5, thermal at the midpoint of a valid range of
[0, 1]), the red output channel is NOT the contrast stretch computed with
the spec's factor `259*(C+255) / (255*(259-C))`: the code divides by
`255*259 - C` instead, a strictly smaller stretch. -/
theorem geocolor_spec_factor_counterexample :
    (make_geocolor_image (FVal.fin (1/2)) (FVal.fin (1/2)) (FVal.fin (1/2))
        (FVal.fin (1/2)) 0 1).r ≠
      contrast_stretch spec_contrast_factor (FVal.fin ((1/2 : ℝ) ^ gammaExp)) := by
  have heval : make_geocolor_image (FVal.fin (1/2)) (FVal.fin (1/2))
      (FVal.fin (1/2)) (FVal.fin (1/2)) 0 1 =
      { r := contrast_stretch F (FVal.fin ((1/2 : ℝ) ^ gammaExp))
        g := contrast_stretch F (FVal.fin ((1/2 : ℝ) ^ gammaExp))
        b := contrast_stretch F (FVal.fin ((1/2 : ℝ) ^ gammaExp)) } := by
    have h0 := geocolor_synthetic 0 1 (by norm_num)
    norm_num at h0
    exact h0
  rw [heval]
  set p : ℝ := (1/2 : ℝ) ^ gammaExp with hp
  have hp1 : 1/2 < p := half_lt_gamma_pow
  have hp2 : p < 7/10 := gamma_pow_lt_seven_tenths
  have hFv : ((F : ℚ) : ℝ) = 93240 / 65940 := by norm_num [F, CONTRAST]
  have hSv : ((spec_contrast_factor : ℚ) : ℝ) = 93240 / 39270 := by
    norm_num [spec_contrast_factor, CONTRAST]
  simp only [contrast_stretch, FVal.csub, FVal.cmul, FVal.cadd, FVal.clip01,
    FVal.fin.injEq]
  rw [hFv, hSv]
  rw [max_eq_left (by nlinarith), min_eq_left (by nlinarith),
    max_eq_left (by nlinarith), min_eq_left (by nlinarith)]
  intro hEq
  rw [FVal.fin.injEq] at hEq
  push_cast at hEq
  nlinarith [hEq]

/-- C2 (amended): with the default contrast C = 105, the final contrast
stretch uses the factor `F = 259*(C+255) / (255*259 - C)` as written on
line 92 of process_files.py and returns `clip(F*(x-0.5)+0.5, 0, 1)`
elementwise; for a synthetic input with the three visible channels at 0.5
and the thermal channel at the midpoint of its valid range, each output
channel equals `clip(F*(0.5^(1/1.7) - 0.5) + 0.5, 0, 1)` with that F. -/
theorem geocolor_contrast_stretch (irlo irhi : ℚ) (h : irlo < irhi) :
    make_geocolor_image (FVal.fin (1/2)) (FVal.fin (1/2)) (FVal.fin (1/2))
        (FVal.fin (((irlo + irhi) / 2 : ℚ) : ℝ)) irlo irhi =
      { r := contrast_stretch F (FVal.fin ((1/2 : ℝ) ^ gammaExp))
        g := contrast_stretch F (FVal.fin ((1/2 : ℝ) ^ gammaExp))
        b := contrast_stretch F (FVal.fin ((1/2 : ℝ) ^ gammaExp)) } :=
  geocolor_synthetic irlo irhi h

/-- Witness for the amended C2 at the concrete valid range [0, 1]. -/
theorem geocolor_contrast_stretch_witness :
    make_geocolor_image (FVal.fin (1/2)) (FVal.fin (1/2)) (FVal.fin (1/2))
        (FVal.fin ((((0 : ℚ) + 1) / 2 : ℚ) : ℝ)) 0 1 =
      { r := contrast_stretch F (FVal.fin ((1/2 : ℝ) ^ gammaExp))
        g := contrast_stretch F (FVal.fin ((1/2 : ℝ) ^ gammaExp))
        b := contrast_stretch F (FVal.fin ((1/2 : ℝ) ^ gammaExp)) } :=
  geocolor_contrast_stretch 0 1 (by norm_num)

/-- C1 (corrected, counterexample): a NaN input channel value survives
every clipping step: with the red channel NaN (all other channels zero
and a valid range of [0, 1]), the red output of the Colorization Engine
is NaN, because numpy clip, power, maximum and arithmetic all propagate
NaN. -/
theorem geocolor_nan_propagates :
    (make_geocolor_image FVal.nan (FVal.fin 0) (FVal.fin 0) (FVal.fin 0)
      0 1).r = FVal.nan := by
  simp only [make_geocolor_image, FVal.clip01, FVal.npow, FVal.nmax,
    FVal.csub, FVal.cmul, FVal.cadd]

/-- C1 (amended): for every input whose four channel values are not NaN
(infinities allowed) and whose declared thermal valid range is
nondegenerate, every element of the composite is finite and lies within
[0, 1]. A NaN input, however, propagates to the output. -/
theorem make_geocolor_image_inUnit (R0 NIR0 B0 C13 : FVal) (irlo irhi : ℚ)
    (hR : R0 ≠ FVal.nan) (hN : NIR0 ≠ FVal.nan) (hB : B0 ≠ FVal.nan)
    (hC : C13 ≠ FVal.nan) (hlo : irlo < irhi) :
    (make_geocolor_image R0 NIR0 B0 C13 irlo irhi).r.inUnit ∧
    (make_geocolor_image R0 NIR0 B0 C13 irlo irhi).g.inUnit ∧
    (make_geocolor_image R0 NIR0 B0 C13 irlo irhi).b.inUnit := by
  have hRc := FVal.clip01_inUnit hR
  have hNc := FVal.clip01_inUnit hN
  have hBc := FVal.clip01_inUnit hB
  obtain ⟨rv, hrv, -, -⟩ := FVal.clip01_inUnit hR
  obtain ⟨nv, hnv, -, -⟩ := FVal.clip01_inUnit hN
  obtain ⟨bv, hbv, -, -⟩ := FVal.clip01_inUnit hB
  have hGsum : ((FVal.cmul 0.45 R0.clip01).add
      (FVal.cmul 0.1 NIR0.clip01)).add (FVal.cmul 0.45 B0.clip01) ≠
      FVal.nan := by
    rw [hrv, hnv, hbv]
    exact FVal.fin_ne_nan _
  have hG := FVal.clip01_inUnit hGsum
  have hcIR : (((((C13.csub irlo).cdiv (irhi - irlo)).clip01).oneSub).cdiv
      1.3).inUnit :=
    FVal.cdiv_inUnit (by norm_num)
      (FVal.oneSub_inUnit (FVal.clip01_inUnit
        (FVal.cdiv_ne_nan (sub_ne_zero_of_ne hlo.ne') (FVal.csub_ne_nan hC))))
  have hrOut := contrast_stretch_inUnit F_pos
    (FVal.nmax_inUnit (FVal.npow_inUnit gammaExp_nonneg hRc) hcIR).ne_nan
  have hgOut := contrast_stretch_inUnit F_pos
    (FVal.nmax_inUnit (FVal.npow_inUnit gammaExp_nonneg hG) hcIR).ne_nan
  have hbOut := contrast_stretch_inUnit F_pos
    (FVal.nmax_inUnit (FVal.npow_inUnit gammaExp_nonneg hBc) hcIR).ne_nan
  exact ⟨hrOut, hgOut, hbOut⟩

/-- Witness for the amended C1 at a concrete input exercising values
outside [0, 1] and an infinity. -/
theorem make_geocolor_image_inUnit_witness :
    (make_geocolor_image (FVal.fin 2) FVal.inf (FVal.fin (1/2)) FVal.ninf
      0 1).r.inUnit ∧
    (make_geocolor_image (FVal.fin 2) FVal.inf (FVal.fin (1/2)) FVal.ninf
      0 1).g.inUnit ∧
    (make_geocolor_image (FVal.fin 2) FVal.inf (FVal.fin (1/2)) FVal.ninf
      0 1).b.inUnit :=
  make_geocolor_image_inUnit (FVal.fin 2) FVal.inf (FVal.fin (1/2)) FVal.ninf
    0 1 (FVal.fin_ne_nan 2) (fun h => FVal.noConfusion h)
    (FVal.fin_ne_nan _) (fun h => FVal.noConfusion h) (by norm_num)

/-- C7 (confirmed): the Colorization Engine is exactly the composition the
spec describes: clip the three visible channels, synthesize and clip
green, gamma-correct with exponent 1/1.7, form the clean-IR overlay from
the thermal channel and its declared valid range, take the elementwise
maximum of each gamma-corrected channel with the overlay, and contrast
stretch the result. -/
theorem make_geocolor_image_eq_spec_steps (R0 NIR0 B0 C13 : FVal)
    (irlo irhi : ℚ) :
    make_geocolor_image R0 NIR0 B0 C13 irlo irhi =
      { r := contrast_stretch F (FVal.nmax (FVal.npow gammaExp R0.clip01)
            (clean_ir_overlay C13 irlo irhi))
        g := contrast_stretch F (FVal.nmax (FVal.npow gammaExp
            (green_synth R0.clip01 NIR0.clip01 B0.clip01))
            (clean_ir_overlay C13 irlo irhi))
        b := contrast_stretch F (FVal.nmax (FVal.npow gammaExp B0.clip01)
            (clean_ir_overlay C13 irlo irhi)) } := rfl

/-- One output cell's sampled value through precomputed bilinear weights;
a model of the external `pyresample.bilinear.get_sample_from_bil_info`
as the spec describes it (sections 2 and 4.3): each output cell draws on
up to 8 neighboring source cells with interpolation weights, and a cell
with no valid contributing neighbor receives the NaN fill value. -/
def get_sample_from_bil_info (data : ℕ → ℝ) : List (ℕ × ℝ) → FVal
  | [] => FVal.nan
  | ws => FVal.fin (ws.foldl (fun acc p => acc + p.2 * data p.1) 0)

/-- numpy `np.ma.fix_invalid(x).filled(0)`: NaN and infinite entries are
masked and filled with 0, finite entries pass through. -/
def fix_invalid_filled0 : FVal → ℝ
  | .nan => 0
  | .inf => 0
  | .ninf => 0
  | .fin x => x

/-- The cast `.astype("uint8")` of a double, as C truncation toward zero
reduced modulo 256; faithful for the nonnegative in-range values that
arise below. -/
noncomputable def astype_uint8 (x : ℝ) : ℕ := (⌊x⌋).toNat % 256

/-- One output cell of `resample_image` (process_files.py lines 135 to
145): the three color channels of the composite are sampled through the
precomputed weights, a constant band of ones is stacked on as alpha,
invalid values are filled with 0, and the whole is scaled by 255 and
cast to unsigned bytes. -/
noncomputable def resampleCell (img : ℕ → Fin 3 → ℝ) (cell : List (ℕ × ℝ)) :
    ℕ × ℕ × ℕ × ℕ :=
  (astype_uint8 (fix_invalid_filled0
      (get_sample_from_bil_info (fun i => img i 0) cell) * 255),
   astype_uint8 (fix_invalid_filled0
      (get_sample_from_bil_info (fun i => img i 1) cell) * 255),
   astype_uint8 (fix_invalid_filled0
      (get_sample_from_bil_info (fun i => img i 2) cell) * 255),
   astype_uint8 (fix_invalid_filled0 (FVal.fin 1) * 255))

/-- `resample_image` (process_files.py lines 135 to 145) over a weight
set holding one entry per output cell. -/
noncomputable def resample_image (params : List (List (ℕ × ℝ)))
    (img : ℕ → Fin 3 → ℝ) : List (ℕ × ℕ × ℕ × ℕ) :=
  params.map (resampleCell img)

theorem astype_uint8_zero : astype_uint8 0 = 0 := by
  norm_num [astype_uint8]

theorem astype_uint8_255 : astype_uint8 255 = 255 := by
  norm_num [astype_uint8]
  decide

theorem resampleCell_empty (img : ℕ → Fin 3 → ℝ) :
    resampleCell img [] = (0, 0, 0, 255) := by
  simp only [resampleCell, get_sample_from_bil_info, fix_invalid_filled0]
  rw [zero_mul, one_mul, astype_uint8_zero, astype_uint8_255]

theorem resampleCell_zero_img (cell : List (ℕ × ℝ)) :
    resampleCell (fun _ _ => 0) cell = (0, 0, 0, 255) := by
  cases cell with
  | nil => exact resampleCell_empty _
  | cons w ws =>
      have hs : ∀ ch : Fin 3, get_sample_from_bil_info
          (fun i => (fun _ _ => (0:ℝ)) i ch) (w :: ws) = FVal.fin 0 := by
        intro ch
        simp only [get_sample_from_bil_info, FVal.fin.injEq]
        exact List.foldl_fixed' (fun b => by rw [mul_zero, add_zero]) _
      simp only [resampleCell, hs 0, hs 1, hs 2, fix_invalid_filled0]
      rw [zero_mul, one_mul, astype_uint8_zero, astype_uint8_255]

/-- C3 (corrected, counterexample): a single-cell weight set in which the
output cell has no valid contributing source neighbor, applied to an
all-zero composite, yields the cell (0, 0, 0, 255): the alpha band is the
constant 255 (the code stacks `np.ones(shape)` as alpha and
`fix_invalid` never masks it), not the claimed 0. -/
theorem resample_image_alpha_counterexample :
    resample_image [[]] (fun _ _ => 0) = [(0, 0, 0, 255)] ∧
    resample_image [[]] (fun _ _ => 0) ≠ [(0, 0, 0, 0)] := by
  have h : resample_image [[]] (fun _ _ => 0) = [(0, 0, 0, 255)] := by
    simp only [resample_image, List.map_cons, List.map_nil]
    rw [resampleCell_empty]
  exact ⟨h, by rw [h]; decide⟩

/-- C3 (amended): `resample_image` scales the composite by 255 into
unsigned bytes, but every output cell carries alpha 255 (the alpha band
is a constant band of ones), including cells with no valid contributing
source neighbor, whose color channels are filled with 0; resampling an
all-zero composite yields an output all of whose cells are
(0, 0, 0, 255) — opaque black, not zero alpha. -/
theorem resample_image_zero_composite (params : List (List (ℕ × ℝ)))
    (img : ℕ → Fin 3 → ℝ) (q : ℕ × ℕ × ℕ × ℕ) :
    resampleCell img [] = (0, 0, 0, 255) ∧
    (q ∈ resample_image params (fun _ _ => 0) → q = (0, 0, 0, 255)) := by
  refine ⟨resampleCell_empty img, fun hq => ?_⟩
  rw [resample_image] at hq
  obtain ⟨cell, -, rfl⟩ := List.mem_map.mp hq
  exact resampleCell_zero_img cell

/-- Zero-padded two-digit decimal rendering, as strftime pads fields. -/
def pad2 (n : ℕ) : String := if n < 10 then "0" ++ toString n else toString n

/-- The proleptic Gregorian civil date (year, month, day) of a day count
since 1970-01-01, for the UTC conversion `datetime.utcfromtimestamp`
performs. -/
def civilFromDays (z0 : ℕ) : ℕ × ℕ × ℕ :=
  let z := z0 + 719468
  let era := z / 146097
  let doe := z % 146097
  let yoe := (doe - doe / 1460 + doe / 36524 - doe / 146096) / 365
  let y := yoe + era * 400
  let doy := doe - (365 * yoe + yoe / 4 - yoe / 100)
  let mp := (5 * doy + 2) / 153
  let d := doy - (153 * mp + 2) / 5 + 1
  let m := if mp < 10 then mp + 3 else mp - 9
  (if m ≤ 2 then y + 1 else y, m, d)

/-- The format `strftime("%Y-%m-%dT%H:%M:%SZ")` of an epoch second
count. -/
def isoTimestamp (secs : ℕ) : String :=
  let days := secs / 86400
  let sod := secs % 86400
  let ymd := civilFromDays days
  toString ymd.1 ++ "-" ++ pad2 ymd.2.1 ++ "-" ++ pad2 ymd.2.2 ++ "T" ++
    pad2 (sod / 3600) ++ ":" ++ pad2 (sod % 3600 / 60) ++ ":" ++
    pad2 (sod % 60) ++ "Z"

/-- `make_img_filename` (process_files.py lines 148 to 150): the platform
identifier, an underscore, the UTC timestamp (to the second) of the
dataset's `t` midpoint coordinate given in nanoseconds since the epoch,
and the suffix ".png". -/
def make_img_filename (platform : String) (t : ℕ) : String :=
  platform ++ "_" ++ isoTimestamp (t / 1000000000) ++ ".png"

/-- A publish destination: contents by filename. -/
def Store : Type := String → Option (List ℕ)

/-- Modelled from the spec: the filename-derived duplicate check of the
Idempotent Publisher (spec section 4.5). The implementing function
`get_process_and_save`, which cli.py line 208 imports from
process_files.py, is absent from the source tree; this follows the
spec's words: "the canonical filename already encodes the acquisition's
midpoint timestamp to the second; if a file of that name exists, skip",
and otherwise the image is written under its derived name. -/
def publish (store : Store) (name : String) (content : List ℕ) : Store :=
  if (store name).isSome then store
  else fun k => if k = name then some content else store k

/-- C4 (confirmed, spec-modelled): publishing is write-once per derived
filename `platform_timestamp.png`: when the name is free, publishing
twice (with any contents) leaves exactly one file under that name whose
content is the first-written content, and every other name untouched;
the second publish is skipped. -/
theorem publish_write_once (store : Store) (platform : String) (t : ℕ)
    (c1 c2 : List ℕ) (h : store (make_img_filename platform t) = none) :
    (publish (publish store (make_img_filename platform t) c1)
        (make_img_filename platform t) c2) (make_img_filename platform t)
      = some c1 ∧
    ∀ k, k ≠ make_img_filename platform t →
      (publish (publish store (make_img_filename platform t) c1)
          (make_img_filename platform t) c2) k = store k := by
  refine ⟨?_, fun k hk => ?_⟩
  · simp [publish, h]
  · simp [publish, h, hk]

/-- Witness for C4: an empty destination, the GOES-16 platform tag and
the epoch midpoint, two distinct contents. -/
theorem publish_write_once_witness :
    (publish (publish (fun _ => none) (make_img_filename "G16" 0) [1])
        (make_img_filename "G16" 0) [2]) (make_img_filename "G16" 0)
      = some [1] ∧
    ∀ k, k ≠ make_img_filename "G16" 0 →
      (publish (publish (fun _ => none) (make_img_filename "G16" 0) [1])
          (make_img_filename "G16" 0) [2]) k = (fun _ => none : Store) k :=
  publish_write_once (fun _ => none) "G16" 0 [1] [2] rfl

/-- The visible state of one publish destination: the content under the
final name and under the temporary name, when present. -/
structure WriteState where
  final : Option (List ℕ)
  tmp : Option (List ℕ)

/-- Modelled from the spec: the write path of the Idempotent Publisher
(spec section 4.5); the implementing function `get_process_and_save`,
which cli.py line 208 imports, is absent from the source tree. The
spec's words: "create a temporary file in the destination directory,
encode the image with embedded provenance metadata, set world-readable
permissions, then atomically rename into place. On any failure during
encode, the temporary file must be removed before the error propagates."
Here `encoded = none` models an encode failure; the returned flag
reports that an error propagated. -/
def atomic_save (s : WriteState) (encoded : Option (List ℕ)) :
    WriteState × Bool :=
  let s1 : WriteState := { s with tmp := some [] }
  match encoded with
  | none => ({ s1 with tmp := none }, true)
  | some c => ({ final := some c, tmp := none }, false)

/-- C5 (confirmed, spec-modelled): when the final name is initially free,
a failed encode leaves no file at the final path and no stray temporary
file, and the error propagates; the final name receives content only
when the encode fully succeeds, and then no temporary file remains. -/
theorem atomic_save_spec (s : WriteState) (c : List ℕ)
    (hfin : s.final = none) :
    atomic_save s none = ({ final := none, tmp := none }, true) ∧
    atomic_save s (some c) = ({ final := some c, tmp := none }, false) := by
  constructor
  · simp [atomic_save, hfin]
  · rfl

/-- Witness for C5 at the empty destination. -/
theorem atomic_save_spec_witness :
    atomic_save ⟨none, none⟩ none = ({ final := none, tmp := none }, true) ∧
    atomic_save ⟨none, none⟩ (some [7]) =
      ({ final := some [7], tmp := none }, false) :=
  atomic_save_spec ⟨none, none⟩ [7] rfl

/-- Events of one queue-mode unit of work (spec section 4.6). -/
inductive QEvent where
  | received : QEvent
  | leased : QEvent
  | renew : ℕ → QEvent
  | stopHeartbeat : QEvent
  | ack : QEvent
  deriving DecidableEq

/-- Whether an event is a lease renewal. -/
def QEvent.isRenew : QEvent → Bool
  | .renew _ => true
  | _ => false

/-- Modelled from the spec: the queue-mode state machine per unit of
work (spec sections 4.6 and 5); the consumer `get_process_and_save`
that cli.py line 208 imports is absent from the source tree. The unit
is received and leased; a concurrently running heartbeat renews the
lease every `renewEvery` time units (half the lease duration) while the
pipeline, lasting `runtime`, runs; the heartbeat is stopped
unconditionally before the message is deleted, and on a pipeline
failure the message is not deleted at all. -/
def queue_unit_trace (renewEvery runtime : ℕ) (pipelineFails : Bool) :
    List QEvent :=
  let renewals := (List.range ((runtime - 1) / renewEvery)).map
    (fun k => QEvent.renew ((k + 1) * renewEvery))
  [QEvent.received, QEvent.leased] ++ renewals ++ [QEvent.stopHeartbeat] ++
    (if pipelineFails then [] else [QEvent.ack])

/-- C6 (confirmed, spec-modelled): with a positive renewal interval
`h` (half the lease duration `2*h`) and a pipeline run lasting longer
than one lease interval, (i) the heartbeat renews the lease at least
once (at time h) in a successful run, (ii) message deletion is the very
last event of a successful run, so every renewal precedes it, and
(iii) on every path, success or failure, the heartbeat stop precedes
any remaining events and no renewal ever follows it. -/
theorem queue_unit_heartbeat (h runtime : ℕ) (b : Bool) (hpos : 0 < h)
    (hlong : 2 * h < runtime) :
    QEvent.renew h ∈ queue_unit_trace h runtime false ∧
    (∃ pre, queue_unit_trace h runtime false = pre ++ [QEvent.ack]) ∧
    (∃ pre post, queue_unit_trace h runtime b =
        pre ++ QEvent.stopHeartbeat :: post ∧
      ∀ e ∈ post, e.isRenew = false) := by
  have hcnt : 1 ≤ (runtime - 1) / h := by
    rw [Nat.le_div_iff_mul_le hpos]
    omega
  refine ⟨?_, ?_, ?_⟩
  · simp only [queue_unit_trace]
    refine List.mem_append.mpr (Or.inl (List.mem_append.mpr (Or.inl
      (List.mem_append.mpr (Or.inr ?_)))))
    refine List.mem_map.mpr ⟨0, List.mem_range.mpr ?_, by rw [zero_add, one_mul]⟩
    omega
  · exact ⟨[QEvent.received, QEvent.leased] ++
      (List.range ((runtime - 1) / h)).map
        (fun k => QEvent.renew ((k + 1) * h)) ++ [QEvent.stopHeartbeat],
      by simp [queue_unit_trace]⟩
  · refine ⟨[QEvent.received, QEvent.leased] ++
      (List.range ((runtime - 1) / h)).map
        (fun k => QEvent.renew ((k + 1) * h)),
      if b then [] else [QEvent.ack], by cases b <;> simp [queue_unit_trace],
      fun e he => ?_⟩
    cases b with
    | true => simp at he
    | false =>
        simp only [if_neg Bool.false_ne_true, List.mem_singleton] at he
        rw [he]
        rfl

/-- Witness for C6 at renewal interval 1, runtime 3, a failing pipeline. -/
theorem queue_unit_heartbeat_witness :
    QEvent.renew 1 ∈ queue_unit_trace 1 3 false ∧
    (∃ pre, queue_unit_trace 1 3 false = pre ++ [QEvent.ack]) ∧
    (∃ pre post, queue_unit_trace 1 3 true =
        pre ++ QEvent.stopHeartbeat :: post ∧
      ∀ e ∈ post, e.isRenew = false) :=
  queue_unit_heartbeat 1 3 true (by norm_num) (by norm_num)

/-- One storage-event record: the bucket and object key of a created
object, as carried inside the nested notification body. -/
structure S3Record where
  bucket : String
  key : String

/-- The loop body of `lambda_handler` (filter_sqs.py lines 21 to 28):
a record whose key starts with the configured prefix is appended as a
queue entry with the running id and the body "bucket:key", and the
counter advances; other records leave the accumulator unchanged. -/
def sqs_step (pre : String) (acc : List (String × String) × ℕ)
    (r : S3Record) : List (String × String) × ℕ :=
  if pre.isPrefixOf r.key
  then (acc.1 ++ [(toString acc.2, r.bucket ++ ":" ++ r.key)], acc.2 + 1)
  else acc

/-- `lambda_handler` (filter_sqs.py lines 13 to 36): the event is a batch
of SQS records, each wrapping a list of storage-event records; the
entries sent to the queue are accumulated over the nested loops with the
id counter starting at 1. -/
def lambda_handler (pre : String) (event : List (List S3Record)) :
    List (String × String) :=
  (event.foldl (fun acc recs => recs.foldl (sqs_step pre) acc) ([], 1)).1

/-- The body string an eligible record is enqueued under. -/
def entry_body (r : S3Record) : String := r.bucket ++ ":" ++ r.key

theorem sqs_step_foldl (pre : String) (recs : List S3Record)
    (acc : List (String × String) × ℕ) :
    ((recs.foldl (sqs_step pre) acc).1).map Prod.snd =
      acc.1.map Prod.snd ++
        (recs.filter (fun r => pre.isPrefixOf r.key)).map entry_body := by
  induction recs generalizing acc with
  | nil => simp
  | cons r rs ih =>
      rw [List.foldl_cons, ih]
      by_cases hr : pre.isPrefixOf r.key
      · simp [sqs_step, hr, entry_body]
      · simp [sqs_step, hr]

theorem sqs_outer_foldl (pre : String) (event : List (List S3Record))
    (acc : List (String × String) × ℕ) :
    ((event.foldl (fun acc recs => recs.foldl (sqs_step pre) acc) acc).1).map
        Prod.snd =
      acc.1.map Prod.snd ++
        (event.flatten.filter (fun r => pre.isPrefixOf r.key)).map
          entry_body := by
  induction event generalizing acc with
  | nil => simp
  | cons recs rest ih =>
      rw [List.foldl_cons, ih, sqs_step_foldl]
      simp

/-- C8 (confirmed): the filtering lambda enqueues exactly those records
of the batch whose key starts with the configured prefix, in order, each
as a message whose body is the direct string "bucket:key"; records whose
keys do not start with the prefix contribute no entry. -/
theorem lambda_handler_enqueues_filtered (pre : String)
    (event : List (List S3Record)) :
    (lambda_handler pre event).map Prod.snd =
      (event.flatten.filter (fun r => pre.isPrefixOf r.key)).map
        entry_body := by
  rw [lambda_handler, sqs_outer_foldl]
  simp

/-- The corner presets of constants.py lines 5 and 6, as
longitude/latitude pairs. -/
def G17_CORNERS : (ℤ × ℤ) × (ℤ × ℤ) := ((-116, 38), (-102, 30))

/-- The GOES-16 preset, constants.py line 6. -/
def G16_CORNERS : (ℤ × ℤ) × (ℤ × ℤ) := ((-116, 30), (-102, 38))

/-- The two corner choices `process_s3_file` makes (process_files.py
lines 188 to 199): the first component is the corner set handed to
`open_file` for the decode subset, chosen by whether "goes17" occurs in
the bucket name (lines 191 to 194); the second is the corner set handed
to `make_resample_params` for the published output's extent, written
`G17_CORNERS` on line 197. -/
def process_s3_file_corners (bucket : String) :
    ((ℤ × ℤ) × (ℤ × ℤ)) × ((ℤ × ℤ) × (ℤ × ℤ)) :=
  ((if "goes17".toList <:+: bucket.toList then G17_CORNERS
    else G16_CORNERS),
   G17_CORNERS)

/-- C9 (confirmed): for every bucket, the target extent used for
resample-weight computation is the G17 preset, independent of the
bucket, while the decode subset corners do depend on whether "goes17"
occurs in the bucket name. -/
theorem process_s3_file_resample_extent (bucket : String) :
    (process_s3_file_corners bucket).2 = G17_CORNERS ∧
    (("goes17".toList <:+: bucket.toList) →
      (process_s3_file_corners bucket).1 = G17_CORNERS) ∧
    (¬ ("goes17".toList <:+: bucket.toList) →
      (process_s3_file_corners bucket).1 = G16_CORNERS) := by
  refine ⟨rfl, fun hy => ?_, fun hn => ?_⟩
  · show (if "goes17".toList <:+: bucket.toList then G17_CORNERS
      else G16_CORNERS) = G17_CORNERS
    exact if_pos hy
  · show (if "goes17".toList <:+: bucket.toList then G17_CORNERS
      else G16_CORNERS) = G16_CORNERS
    exact if_neg hn

/-- The metadata file and the temporary file beside it. -/
structure MetaFS where
  meta : List ℕ
  tmp : Option (List ℕ)

/-- `update_existing_file` (write_metadata.py lines 94 to 111), from the
point where the refreshed values are in hand: `tempfile.mkstemp` creates
an empty temporary file beside the metadata file; the try block writes
the new content to it; on an exception the temporary file is unlinked
and an error propagates (the source's bare `raise ()` raises a
TypeError rather than re-raising the original exception, but an error
still reaches the caller); otherwise the file is chmod-ed and renamed
onto the metadata path. `writeFails` models an exception during the
write; the returned flag reports whether an error propagated. -/
def update_existing_file (fs : MetaFS) (newContent : List ℕ)
    (writeFails : Bool) : MetaFS × Bool :=
  let fs1 : MetaFS := { fs with tmp := some [] }
  if writeFails then
    ({ fs1 with tmp := none }, true)
  else
    let fs2 : MetaFS := { fs1 with tmp := some newContent }
    ({ meta := fs2.tmp.getD [], tmp := none }, false)

/-- C10 (confirmed): if writing the new metadata content to the
temporary file raises, the temporary file is unlinked, the pre-existing
metadata file is unchanged and an error propagates to the caller; the
rename onto the metadata path, which installs the new content, happens
only on the success path, after the write succeeded. -/
theorem update_existing_file_error_path (fs : MetaFS) (c : List ℕ) :
    (update_existing_file fs c true).1.meta = fs.meta ∧
    (update_existing_file fs c true).1.tmp = none ∧
    (update_existing_file fs c true).2 = true ∧
    (update_existing_file fs c false).1.meta = c ∧
    (update_existing_file fs c false).1.tmp = none ∧
    (update_existing_file fs c false).2 = false :=
  ⟨rfl, rfl, rfl, rfl, rfl, rfl⟩

end GoesViewer
